import Mathlib

/-!
Verification of the pure date/ranking routines of the adjunct-oss repository.

The embedded functions are translated from:
* `src/course_utils.py` — `calculate_current_week`, `calculate_announcement_dates`;
* `src/utils.py` — the duplicate implementations of the same two functions;
* `src/response_generator.py` — `_select_few_shots`.

Dates are modelled as day numbers (`Int`, days since 1970-01-01) together with
civil (year, month, day) triples in the proleptic Gregorian calendar, the
calendar used by Python's `datetime`.  `datetime.now()` is modelled by an
explicit `today : Int` day number: the time-of-day component cancels in the
source's `.days` computations, because `current_week_monday` and
`start_monday` differ by a whole number of days plus a fraction in `[0, 1)`
and `timedelta.days` floors.
-/

/-- Python weekday convention: Monday = 0 … Sunday = 6.  Day 0
(1970-01-01) is a Thursday, weekday 3.  `%` on `Int` is `emod`, which is
nonnegative for a positive modulus, matching Python's `%`. -/
def pyWeekday (z : Int) : Int := (z + 3) % 7

/-- Gregorian leap-year rule, as in Python's `calendar.isleap`. -/
def isLeap (y : Nat) : Bool := y % 4 == 0 && (y % 100 != 0 || y % 400 == 0)

/-- Length of month `m` in year `y` (Gregorian). -/
def daysInMonth (y m : Nat) : Nat :=
  if m == 2 then (if isLeap y then 29 else 28)
  else if m == 4 || m == 6 || m == 9 || m == 11 then 30
  else 31

/-- Day number since 1970-01-01 of civil date (y, m, d), proleptic
Gregorian (Howard Hinnant's `days_from_civil`). -/
def daysFromCivil (y m d : Int) : Int :=
  let y' := if m ≤ 2 then y - 1 else y
  let era := Int.fdiv y' 400
  let yoe := y' - era * 400
  let mp := (m + 9) % 12
  let doy := (153 * mp + 2) / 5 + d - 1
  let doe := yoe * 365 + yoe / 4 - yoe / 100 + doy
  era * 146097 + doe - 719468

/-- Civil date (y, m, d) of a day number since 1970-01-01 (Hinnant's
`civil_from_days`). -/
def civilFromDays (z0 : Int) : Int × Int × Int :=
  let z := z0 + 719468
  let era := Int.fdiv z 146097
  let doe := z - era * 146097
  let yoe := (doe - doe / 1460 + doe / 36524 - doe / 146096) / 365
  let y := yoe + era * 400
  let doy := doe - (365 * yoe + yoe / 4 - yoe / 100)
  let mp := (5 * doy + 2) / 153
  let d := doy - (153 * mp + 2) / 5 + 1
  let m := if mp < 10 then mp + 3 else mp - 9
  (if m ≤ 2 then y + 1 else y, m, d)

/-- A parsed calendar date, the result of `datetime.strptime(s, "%Y-%m-%d")`
(the time component is midnight and is irrelevant to the modelled code). -/
structure PyDate where
  year : Nat
  month : Nat
  day : Nat
deriving DecidableEq, Repr

/-- Day number of a `PyDate`. -/
def PyDate.toOrd (d : PyDate) : Int := daysFromCivil d.year d.month d.day

/-- Split a character list at every `'-'` (the semantics of
`str.split("-")` on the date string's characters). -/
def splitDash : List Char → List (List Char)
  | [] => [[]]
  | c :: rest =>
    if c = '-' then [] :: splitDash rest
    else
      match splitDash rest with
      | [] => [[c]]
      | g :: gs => (c :: g) :: gs

/-- Numeric value of a decimal digit list (most significant first). -/
def digitsToNat (l : List Char) : Nat :=
  l.foldl (fun n c => n * 10 + (c.toNat - 48)) 0

/-- A nonempty all-digit character list. -/
def isDigits (l : List Char) : Bool :=
  !l.isEmpty && l.all (fun c => c.isDigit)

/-- Model of `datetime.strptime(s, "%Y-%m-%d")`: CPython's `_strptime`
matches `%Y` against exactly four digits, `%m` against a one- or two-digit
number in 1..12, `%d` against a one- or two-digit number in 1..31, the
literal dashes exactly, requires the whole string to be consumed, and the
`datetime` constructor then rejects year 0 and days beyond the month
length.  Returns `none` exactly when CPython raises `ValueError`. -/
def parseDate (s : String) : Option PyDate :=
  match splitDash s.toList with
  | [ys, ms, ds] =>
    if isDigits ys && isDigits ms && isDigits ds then
      let y := digitsToNat ys
      let m := digitsToNat ms
      let d := digitsToNat ds
      if ys.length = 4 ∧ (ms.length = 1 ∨ ms.length = 2)
          ∧ (ds.length = 1 ∨ ds.length = 2)
          ∧ 1 ≤ y ∧ 1 ≤ m ∧ m ≤ 12 ∧ 1 ≤ d ∧ d ≤ daysInMonth y m then
        some ⟨y, m, d⟩
      else none
    else none
  | _ => none

/-- Full English month name, as produced by `strftime("%B")` in the C locale. -/
def monthName (m : Int) : String :=
  ["January", "February", "March", "April", "May", "June", "July",
   "August", "September", "October", "November", "December"].getD (m - 1).toNat ""

/-- Zero-padded two-digit day, as produced by `strftime("%d")`. -/
def pad2 (d : Int) : String :=
  if d < 10 then "0" ++ toString d else toString d

/-- Model of `strftime("%B %d %Y")` (the source's
`ANNOUNCEMENT_DATE_FORMAT`) applied to the date with day number `z`. -/
def formatAnnouncementDate (z : Int) : String :=
  let c := civilFromDays z
  monthName c.2.1 ++ " " ++ pad2 c.2.2 ++ " " ++ toString c.1

/-- The error raised by the Python code on a malformed date string
(`ValueError`, from `strptime`). -/
inductive PyError where
  | valueError
deriving DecidableEq, Repr

/-- `course_config.MIN_WEEK` from `src/config.py` line 63. -/
def MIN_WEEK : Int := 1

/-- `course_config.MAX_WEEK` from `src/config.py` line 64. -/
def MAX_WEEK : Int := 8

/-- `calculate_current_week` from `src/course_utils.py` lines 88–118.
`today` is the day number of `datetime.now()` (see the header note on why
the time of day cancels). -/
def calculate_current_week (course_start_date : String) (today : Int) :
    Except PyError Int :=
  match parseDate course_start_date with
  | none => .error .valueError
  | some sd =>
    let start_date := sd.toOrd
    let start_monday := start_date - pyWeekday start_date
    let current_week_monday :=
      if pyWeekday today = 6 then today - 6 else today - pyWeekday today
    let weeks_elapsed := Int.fdiv (current_week_monday - start_monday) 7
    let current_week := weeks_elapsed + 1
    .ok (max MIN_WEEK (min current_week MAX_WEEK))

/-- An announcement record: `{week, title, content}` as read from
`announcements.json`; `calculate_announcement_dates` reads only `week`. -/
structure Announcement where
  week : Int
  title : String := ""
  content : String := ""
deriving DecidableEq, Repr

/-- Python `dict` assignment `d[k] = v` on an insertion-ordered dictionary:
an existing key keeps its position and gets the new value; a new key is
appended. -/
def dictInsert (k : Int) (v : String) : List (Int × String) → List (Int × String)
  | [] => [(k, v)]
  | (k', v') :: rest =>
    if k' = k then (k, v) :: rest else (k', v') :: dictInsert k v rest

/-- The per-record date computation of `calculate_announcement_dates`
(`src/course_utils.py` lines 137–148): `start + timedelta(weeks=week-1)`,
then the Monday-rounding branch on `days_until_monday`. -/
def annDate (start week : Int) : Int :=
  let announcement_date := start + 7 * (week - 1)
  let wd := pyWeekday announcement_date
  let dum0 := (7 - wd) % 7
  let days_until_monday :=
    if dum0 = 0 then 0 else if wd ≤ 3 then -wd else 7 - wd
  announcement_date + days_until_monday

/-- One iteration of the loop in `calculate_announcement_dates`:
`announcement_dates[week] = formatted_date`. -/
def annStep (start : Int) (dict : List (Int × String)) (a : Announcement) :
    List (Int × String) :=
  dictInsert a.week (formatAnnouncementDate (annDate start a.week)) dict

/-- `calculate_announcement_dates` from `src/course_utils.py` lines 121–154.
The returned insertion-ordered dict is modelled as an association list. -/
def calculate_announcement_dates (course_start_date : String)
    (announcements : List Announcement) :
    Except PyError (List (Int × String)) :=
  match parseDate course_start_date with
  | none => .error .valueError
  | some sd => .ok (announcements.foldl (annStep sd.toOrd) [])

/-- `calculate_current_week` from `src/utils.py` lines 39–58: identical to
the `course_utils.py` version except that the clamp bounds are the literals
`1` and `8` and the date format is the literal `"%Y-%m-%d"`. -/
def utils_calculate_current_week (course_start_date : String) (today : Int) :
    Except PyError Int :=
  match parseDate course_start_date with
  | none => .error .valueError
  | some sd =>
    let start_date := sd.toOrd
    let start_monday := start_date - pyWeekday start_date
    let current_week_monday :=
      if pyWeekday today = 6 then today - 6 else today - pyWeekday today
    let weeks_elapsed := Int.fdiv (current_week_monday - start_monday) 7
    let current_week := weeks_elapsed + 1
    .ok (max 1 (min current_week 8))

/-- `calculate_announcement_dates` from `src/utils.py` lines 61–81:
identical to the `course_utils.py` version with the format strings written
as literals. -/
def utils_calculate_announcement_dates (course_start_date : String)
    (announcements : List Announcement) :
    Except PyError (List (Int × String)) :=
  match parseDate course_start_date with
  | none => .error .valueError
  | some sd => .ok (announcements.foldl (annStep sd.toOrd) [])

/-- The scoring in `_select_few_shots` (`src/response_generator.py`
lines 175–176): `SequenceMatcher(None, content.lower(), post.lower()).ratio()`.
The `difflib` ratio itself is standard-library code outside this repository,
so it is abstracted as a parameter `sim`; the lowercasing of both arguments
is the source's. Scores are modelled in `ℚ` (the ratio `2*M/T` is rational,
and any concrete float score order-embeds into `ℚ`). -/
def pyScore (sim : String → String → ℚ) (content post : String) : ℚ :=
  sim content.toLower post.toLower

/-- Python `sorted(l, key=score, reverse=True)`: the stable descending sort
by score (equal keys keep their input order; `reverse=True` does not disturb
ties). -/
def pySortedDescBy (f : String × String → ℚ) (l : List (String × String)) :
    List (String × String) :=
  l.insertionSort (fun a b => f b ≤ f a)

/-- `_select_few_shots` from `src/response_generator.py` lines 174–178:
`ranked = sorted(examples, key=..., reverse=True); return ranked[:k]`. -/
def select_few_shots (sim : String → String → ℚ) (content : String)
    (examples : List (String × String)) (k : Nat) : List (String × String) :=
  (pySortedDescBy (fun pr => pyScore sim content pr.1) examples).take k

/-- The Monday-rounding rule in the words of the specification: keep a
Monday; move a Tuesday–Thursday back to its week's Monday; move a
Friday–Sunday forward to the next Monday. -/
def roundSpecMonday (z : Int) : Int :=
  let wd := pyWeekday z
  if wd = 0 then z
  else if 1 ≤ wd ∧ wd ≤ 3 then z - wd
  else z + (7 - wd)

/-! ## Lemmas about the Monday rounding -/

/-- The source's `days_until_monday` branch computes exactly the
specification's rounding rule. -/
theorem annDate_eq_roundSpec (start week : Int) :
    annDate start week = roundSpecMonday (start + (week - 1) * 7) := by
  simp only [annDate, roundSpecMonday, pyWeekday]
  split_ifs <;> omega

/-- The rounded announcement date always falls on a Monday. -/
theorem pyWeekday_annDate (start week : Int) :
    pyWeekday (annDate start week) = 0 := by
  simp only [annDate, pyWeekday]
  split_ifs <;> omega

/-! ## Claim theorems: date functions -/

/-- Claim C1: for every well-formed start date and every integer week,
`calculate_announcement_dates` maps that week to `start + (week-1)*7` days
rounded to a Monday (kept on Monday, moved back on Tuesday–Thursday, moved
forward on Friday–Sunday), formatted as full month name, zero-padded day
and year; in particular the start `2025-09-02` gives week 1 ↦
"September 01 2025" and week 2 ↦ "September 08 2025". -/
theorem c1_announcement_round_to_monday :
    (∀ (s : String) (y m d : Nat) (w : Int), parseDate s = some ⟨y, m, d⟩ →
      calculate_announcement_dates s [{week := w}] =
        .ok [(w, formatAnnouncementDate
          (roundSpecMonday (daysFromCivil y m d + (w - 1) * 7)))]) ∧
    calculate_announcement_dates "2025-09-02" [{week := 1}] =
      .ok [(1, "September 01 2025")] ∧
    calculate_announcement_dates "2025-09-02" [{week := 2}] =
      .ok [(2, "September 08 2025")] := by
  refine ⟨fun s y m d w h => ?_, by rfl, by rfl⟩
  simp [calculate_announcement_dates, h, annStep, dictInsert, PyDate.toOrd,
    annDate_eq_roundSpec]

/-- Witness for C1 at the concrete input `"2025-09-02"`, week 1. -/
theorem c1_witness :
    parseDate "2025-09-02" = some ⟨2025, 9, 2⟩ ∧
    calculate_announcement_dates "2025-09-02" [{week := 1}] =
      .ok [(1, formatAnnouncementDate
        (roundSpecMonday (daysFromCivil 2025 9 2 + (1 - 1) * 7)))] :=
  ⟨rfl, c1_announcement_round_to_monday.1 "2025-09-02" 2025 9 2 1 rfl⟩

/-- Claim C2: for every well-formed start date string and every value of
`today`, `calculate_current_week` returns an integer in `[1, 8]` and does
not fail. -/
theorem c2_current_week_clamped :
    ∀ (s : String) (y m d : Nat) (t : Int), parseDate s = some ⟨y, m, d⟩ →
      ∃ n : Int, calculate_current_week s t = .ok n ∧ 1 ≤ n ∧ n ≤ 8 := by
  intro s y m d t h
  simp only [calculate_current_week, h, MIN_WEEK, MAX_WEEK]
  refine ⟨_, rfl, le_max_left _ _, max_le (by norm_num) (min_le_right _ _)⟩

/-- Witness for C2 at start `"2025-09-01"` and `today` day number 0. -/
theorem c2_witness :
    parseDate "2025-09-01" = some ⟨2025, 9, 1⟩ ∧
    ∃ n : Int, calculate_current_week "2025-09-01" 0 = .ok n ∧ 1 ≤ n ∧ n ≤ 8 :=
  ⟨rfl, c2_current_week_clamped "2025-09-01" 2025 9 1 0 rfl⟩

/-- Claim C3: when `today` is a Sunday, `calculate_current_week` attributes
it to the Monday 6 days earlier (the week that Sunday ends), and with start
`2025-09-01` (a Monday) and today `2025-09-07` (the Sunday ending that
week) it returns 1. -/
theorem c3_sunday_previous_week :
    (∀ (s : String) (t : Int), pyWeekday t = 6 →
      calculate_current_week s t = calculate_current_week s (t - 6) ∧
      pyWeekday (t - 6) = 0) ∧
    calculate_current_week "2025-09-01" (daysFromCivil 2025 9 7) = .ok 1 := by
  refine ⟨fun s t h => ?_, by rfl⟩
  have h0 : pyWeekday (t - 6) = 0 := by simp only [pyWeekday] at *; omega
  refine ⟨?_, h0⟩
  simp only [calculate_current_week]
  cases hp : parseDate s with
  | none => rfl
  | some sd => rw [if_pos h, if_neg (by omega), h0]; norm_num

/-- Witness for C3: day number 3 (1970-01-04) is a Sunday. -/
theorem c3_witness :
    pyWeekday 3 = 6 ∧
    (calculate_current_week "2025-09-01" 3 =
        calculate_current_week "2025-09-01" (3 - 6) ∧
      pyWeekday (3 - 6) = 0) :=
  ⟨by decide, c3_sunday_previous_week.1 "2025-09-01" 3 (by decide)⟩

/-- Claim C5: the week resolver and the announcement date calculator are
deterministic — two calls with identical inputs yield identical outputs
(there is no hidden state in the embedded functions; `datetime.now()` is an
explicit input of the model). -/
theorem c5_deterministic :
    ∀ (s₁ s₂ : String) (t₁ t₂ : Int) (a₁ a₂ : List Announcement),
      s₁ = s₂ → t₁ = t₂ → a₁ = a₂ →
      calculate_current_week s₁ t₁ = calculate_current_week s₂ t₂ ∧
      calculate_announcement_dates s₁ a₁ = calculate_announcement_dates s₂ a₂ := by
  intro s₁ s₂ t₁ t₂ a₁ a₂ hs ht ha
  subst hs; subst ht; subst ha
  exact ⟨rfl, rfl⟩

/-- Witness for C5 at concrete equal inputs. -/
theorem c5_witness :
    "2025-09-01" = "2025-09-01" ∧
    (calculate_current_week "2025-09-01" 0 =
        calculate_current_week "2025-09-01" 0 ∧
      calculate_announcement_dates "2025-09-01" [{week := 1}] =
        calculate_announcement_dates "2025-09-01" [{week := 1}]) :=
  ⟨rfl, c5_deterministic "2025-09-01" "2025-09-01" 0 0
    [{week := 1}] [{week := 1}] rfl rfl rfl⟩

/-- Claim C7: on a string that is not a well-formed `YYYY-MM-DD` date, both
functions fail with the parse error and produce no partial result. -/
theorem c7_malformed_date_errors :
    ∀ (s : String) (t : Int) (anns : List Announcement), parseDate s = none →
      calculate_current_week s t = .error .valueError ∧
      calculate_announcement_dates s anns = .error .valueError := by
  intro s t anns h
  constructor <;> simp [calculate_current_week, calculate_announcement_dates, h]

/-- Witness for C7 at the malformed input `"2025/09/01"`. -/
theorem c7_witness :
    parseDate "2025/09/01" = none ∧
    (calculate_current_week "2025/09/01" 0 = .error .valueError ∧
      calculate_announcement_dates "2025/09/01" [] = .error .valueError) :=
  ⟨rfl, c7_malformed_date_errors "2025/09/01" 0 [] rfl⟩

/-- Claim C8: the few-shot selector on an empty pool returns the empty
sequence for every query and every k, without error; in particular
`select_few_shots sim "metric system confusing" [] 3 = []`. -/
theorem c8_empty_pool :
    (∀ (sim : String → String → ℚ) (content : String) (k : Nat),
      select_few_shots sim content [] k = []) ∧
    (∀ sim : String → String → ℚ,
      select_few_shots sim "metric system confusing" [] 3 = []) := by
  constructor <;> intros <;> simp [select_few_shots, pySortedDescBy]

/-- Claim C10: the duplicate implementations in `src/utils.py` and
`src/course_utils.py` agree on all inputs, for both the week resolver and
the announcement date calculator. -/
theorem c10_duplicates_agree :
    ∀ (s : String) (t : Int) (anns : List Announcement),
      utils_calculate_current_week s t = calculate_current_week s t ∧
      utils_calculate_announcement_dates s anns =
        calculate_announcement_dates s anns :=
  fun _ _ _ => ⟨rfl, rfl⟩

/-! ## Lemmas about the insertion-ordered dict -/

theorem lookup_dictInsert_self (k : Int) (v : String) :
    ∀ d : List (Int × String), (dictInsert k v d).lookup k = some v := by
  intro d
  induction d with
  | nil => simp [dictInsert, List.lookup]
  | cons hd tl ih =>
    obtain ⟨k', v'⟩ := hd
    by_cases h : k' = k
    · subst h; simp [dictInsert, List.lookup]
    · have hb : (k == k') = false := beq_eq_false_iff_ne.mpr (Ne.symm h)
      simp [dictInsert, h, List.lookup, hb, ih]

theorem lookup_dictInsert_ne (k k' : Int) (v : String) (h : k' ≠ k) :
    ∀ d : List (Int × String), (dictInsert k v d).lookup k' = d.lookup k' := by
  have hb : (k' == k) = false := beq_eq_false_iff_ne.mpr h
  intro d
  induction d with
  | nil => simp [dictInsert, List.lookup, hb]
  | cons hd tl ih =>
    obtain ⟨k'', v''⟩ := hd
    by_cases hk : k'' = k
    · subst hk
      simp [dictInsert, List.lookup, hb]
    · by_cases hw : k' = k''
      · subst hw; simp [dictInsert, hk, List.lookup]
      · have hb' : (k' == k'') = false := beq_eq_false_iff_ne.mpr hw
        simp [dictInsert, hk, List.lookup, hb', ih]

theorem mem_keys_dictInsert (w k : Int) (v : String) :
    ∀ d : List (Int × String),
      w ∈ (dictInsert k v d).map Prod.fst ↔ w = k ∨ w ∈ d.map Prod.fst := by
  intro d
  induction d with
  | nil => simp [dictInsert]
  | cons hd tl ih =>
    obtain ⟨k', v'⟩ := hd
    by_cases h : k' = k
    · subst h; simp [dictInsert]
    · simp only [dictInsert, if_neg h, List.map_cons, List.mem_cons, ih]
      tauto

theorem nodup_keys_dictInsert (k : Int) (v : String) :
    ∀ d : List (Int × String), (d.map Prod.fst).Nodup →
      ((dictInsert k v d).map Prod.fst).Nodup := by
  intro d
  induction d with
  | nil => simp [dictInsert]
  | cons hd tl ih =>
    obtain ⟨k', v'⟩ := hd
    intro hnd
    simp only [List.map_cons, List.nodup_cons] at hnd
    by_cases h : k' = k
    · subst h
      simpa [dictInsert, List.nodup_cons] using hnd
    · simp only [dictInsert, if_neg h, List.map_cons, List.nodup_cons]
      refine ⟨fun hmem => ?_, ih hnd.2⟩
      rcases (mem_keys_dictInsert k' k v tl).mp hmem with h' | h'
      · exact h h'
      · exact hnd.1 h'

theorem mem_dictInsert (e : Int × String) (k : Int) (v : String) :
    ∀ d : List (Int × String), e ∈ dictInsert k v d → e = (k, v) ∨ e ∈ d := by
  intro d
  induction d with
  | nil => simp [dictInsert]
  | cons hd tl ih =>
    obtain ⟨k', v'⟩ := hd
    by_cases h : k' = k
    · subst h; simp [dictInsert]; tauto
    · simp only [dictInsert, if_neg h, List.mem_cons]
      rintro (he | he)
      · exact Or.inr (Or.inl he)
      · rcases ih he with h' | h'
        · exact Or.inl h'
        · exact Or.inr (Or.inr h')

/-! ## Lemmas about the announcement loop -/

theorem foldl_annStep_lookup_of_not_mem (st : Int) :
    ∀ (anns : List Announcement) (d : List (Int × String)) (w : Int),
      (∀ a ∈ anns, a.week ≠ w) →
      (anns.foldl (annStep st) d).lookup w = d.lookup w := by
  intro anns
  induction anns with
  | nil => intro d w _; rfl
  | cons a rest ih =>
    intro d w h
    simp only [List.foldl_cons]
    rw [ih _ w (fun a' ha' => h a' (List.mem_cons_of_mem _ ha'))]
    exact lookup_dictInsert_ne a.week w _
      (fun he => h a (List.mem_cons_self _ _) he.symm) d

theorem foldl_annStep_lookup_of_mem (st : Int) :
    ∀ (anns : List Announcement) (d : List (Int × String)) (w : Int),
      (∃ a ∈ anns, a.week = w) →
      (anns.foldl (annStep st) d).lookup w =
        some (formatAnnouncementDate (annDate st w)) := by
  intro anns
  induction anns with
  | nil => rintro d w ⟨a, ha, _⟩; simp at ha
  | cons a rest ih =>
    intro d w h
    simp only [List.foldl_cons]
    by_cases hr : ∃ a' ∈ rest, a'.week = w
    · exact ih _ w hr
    · obtain ⟨a₀, ha₀, hw⟩ := h
      have ha : a₀.week = a.week := by
        rcases List.mem_cons.mp ha₀ with h' | h'
        · rw [h']
        · exact absurd ⟨a₀, h', hw⟩ hr
      rw [foldl_annStep_lookup_of_not_mem st rest _ w
        (fun a' h' he => hr ⟨a', h', he⟩)]
      rw [ha] at hw
      simp only [annStep, hw]
      exact lookup_dictInsert_self w _ d

theorem foldl_annStep_mem_keys (st : Int) :
    ∀ (anns : List Announcement) (d : List (Int × String)) (w : Int),
      w ∈ (anns.foldl (annStep st) d).map Prod.fst ↔
        w ∈ d.map Prod.fst ∨ ∃ a ∈ anns, a.week = w := by
  intro anns
  induction anns with
  | nil => simp
  | cons a rest ih =>
    intro d w
    simp only [List.foldl_cons, ih, annStep, mem_keys_dictInsert,
      List.mem_cons]
    constructor
    · rintro ((h | h) | h)
      · exact Or.inr ⟨a, Or.inl rfl, h.symm⟩
      · exact Or.inl h
      · obtain ⟨a', h', hw⟩ := h
        exact Or.inr ⟨a', Or.inr h', hw⟩
    · rintro (h | ⟨a', (h' | h'), hw⟩)
      · exact Or.inl (Or.inr h)
      · exact Or.inl (Or.inl (h' ▸ hw.symm))
      · exact Or.inr ⟨a', h', hw⟩

theorem foldl_annStep_nodup (st : Int) :
    ∀ (anns : List Announcement) (d : List (Int × String)),
      (d.map Prod.fst).Nodup →
      ((anns.foldl (annStep st) d).map Prod.fst).Nodup := by
  intro anns
  induction anns with
  | nil => intro d h; exact h
  | cons a rest ih =>
    intro d h
    simp only [List.foldl_cons]
    exact ih _ (nodup_keys_dictInsert _ _ _ h)

theorem foldl_annStep_mem (st : Int) :
    ∀ (anns : List Announcement) (d : List (Int × String)) (e : Int × String),
      e ∈ anns.foldl (annStep st) d →
      e ∈ d ∨ ∃ a ∈ anns, e = (a.week, formatAnnouncementDate (annDate st a.week)) := by
  intro anns
  induction anns with
  | nil => intro d e h; exact Or.inl h
  | cons a rest ih =>
    intro d e h
    simp only [List.foldl_cons] at h
    rcases ih _ e h with h' | ⟨a', ha', he⟩
    · rcases mem_dictInsert e _ _ d h' with he | hd
      · exact Or.inr ⟨a, List.mem_cons_self _ _, he⟩
      · exact Or.inl hd
    · exact Or.inr ⟨a', List.mem_cons_of_mem _ ha', he⟩

/-! ## Claim theorems: dict shape -/

/-- Claim C6: for a well-formed start date and a record list with duplicate
week numbers, the returned mapping binds each occurring week number to the
announcement date computed for that week (the value written by the record
occurring last in input order — all records with the same week produce the
same date, since the date depends only on the week), and the mapping has
exactly one entry per distinct week number (its keys are exactly the weeks
occurring in the input, without duplicates). -/
theorem c6_last_write_wins :
    ∀ (s : String) (y m d : Nat) (anns : List Announcement)
      (dict : List (Int × String)),
      parseDate s = some ⟨y, m, d⟩ →
      calculate_announcement_dates s anns = .ok dict →
      (∀ w : Int, (∃ a ∈ anns, a.week = w) →
        dict.lookup w =
          some (formatAnnouncementDate (annDate (daysFromCivil y m d) w))) ∧
      (∀ w : Int, w ∈ dict.map Prod.fst ↔ ∃ a ∈ anns, a.week = w) ∧
      (dict.map Prod.fst).Nodup := by
  intro s y m d anns dict hp hc
  simp only [calculate_announcement_dates, hp, Except.ok.injEq] at hc
  subst hc
  refine ⟨fun w hw => foldl_annStep_lookup_of_mem _ anns [] w hw,
    fun w => ?_, foldl_annStep_nodup _ anns [] (by simp)⟩
  rw [foldl_annStep_mem_keys]
  simp

/-- Witness for C6 on a list with a duplicated week number. -/
theorem c6_witness :
    parseDate "2025-09-01" = some ⟨2025, 9, 1⟩ ∧
    calculate_announcement_dates "2025-09-01" [⟨1, "a", "x"⟩, ⟨1, "b", "y"⟩] =
      .ok [(1, "September 01 2025")] ∧
    ((∀ w : Int,
        (∃ a ∈ ([⟨1, "a", "x"⟩, ⟨1, "b", "y"⟩] : List Announcement), a.week = w) →
        ([((1 : Int), "September 01 2025")]).lookup w =
          some (formatAnnouncementDate (annDate (daysFromCivil 2025 9 1) w))) ∧
      (∀ w : Int, w ∈ ([((1 : Int), "September 01 2025")]).map Prod.fst ↔
        ∃ a ∈ ([⟨1, "a", "x"⟩, ⟨1, "b", "y"⟩] : List Announcement), a.week = w) ∧
      (([((1 : Int), "September 01 2025")]).map Prod.fst).Nodup) :=
  ⟨rfl, rfl,
    c6_last_write_wins "2025-09-01" 2025 9 1 [⟨1, "a", "x"⟩, ⟨1, "b", "y"⟩]
      [(1, "September 01 2025")] rfl rfl⟩

/-- Claim C9: every date string in the mapping returned by
`calculate_announcement_dates` denotes a Monday: it is the formatted form
of a day number whose weekday is Monday. -/
theorem c9_dates_are_mondays :
    ∀ (s : String) (y m d : Nat) (anns : List Announcement)
      (dict : List (Int × String)) (entry : Int × String),
      parseDate s = some ⟨y, m, d⟩ →
      calculate_announcement_dates s anns = .ok dict →
      entry ∈ dict →
      ∃ z : Int, pyWeekday z = 0 ∧ entry.2 = formatAnnouncementDate z := by
  intro s y m d anns dict entry hp hc he
  simp only [calculate_announcement_dates, hp, Except.ok.injEq] at hc
  subst hc
  rcases foldl_annStep_mem _ anns [] entry he with h0 | ⟨a, _, he'⟩
  · exact absurd h0 (List.not_mem_nil _)
  · exact ⟨annDate _ a.week, pyWeekday_annDate _ _, by rw [he']⟩

/-- Witness for C9 at the singleton mapping of start `2025-09-02`, week 1. -/
theorem c9_witness :
    parseDate "2025-09-02" = some ⟨2025, 9, 2⟩ ∧
    calculate_announcement_dates "2025-09-02" [{week := 1}] =
      .ok [(1, "September 01 2025")] ∧
    ((1 : Int), "September 01 2025") ∈ [((1 : Int), "September 01 2025")] ∧
    ∃ z : Int, pyWeekday z = 0 ∧
      (((1 : Int), "September 01 2025")).2 = formatAnnouncementDate z :=
  ⟨rfl, rfl, List.mem_singleton.mpr rfl,
    c9_dates_are_mondays "2025-09-02" 2025 9 2 [{week := 1}]
      [(1, "September 01 2025")] (1, "September 01 2025") rfl rfl
      (List.mem_singleton.mpr rfl)⟩

/-! ## Stability of the descending sort -/

theorem filter_orderedInsert_of_eq {α : Type} (f : α → ℚ) (c : ℚ) (x : α)
    (hx : f x = c) :
    ∀ L : List α,
      (L.orderedInsert (fun a b => f b ≤ f a) x).filter
          (fun a => decide (f a = c)) =
        x :: L.filter (fun a => decide (f a = c)) := by
  intro L
  induction L with
  | nil => simp [List.orderedInsert, hx]
  | cons y ys ih =>
    simp only [List.orderedInsert]
    by_cases h : f y ≤ f x
    · rw [if_pos h]
      simp [List.filter_cons, hx]
    · rw [if_neg h]
      have hy : ¬(f y = c) := fun hc => h (le_of_eq (hc.trans hx.symm))
      simp [List.filter_cons, hy, ih]

theorem filter_orderedInsert_of_ne {α : Type} (f : α → ℚ) (c : ℚ) (x : α)
    (hx : f x ≠ c) :
    ∀ L : List α,
      (L.orderedInsert (fun a b => f b ≤ f a) x).filter
          (fun a => decide (f a = c)) =
        L.filter (fun a => decide (f a = c)) := by
  intro L
  induction L with
  | nil => simp [List.orderedInsert, hx]
  | cons y ys ih =>
    simp only [List.orderedInsert]
    by_cases h : f y ≤ f x
    · rw [if_pos h]
      simp [List.filter_cons, hx]
    · rw [if_neg h]
      simp [List.filter_cons, ih]

theorem filter_insertionSort_stable {α : Type} (f : α → ℚ) (c : ℚ) :
    ∀ l : List α,
      (l.insertionSort (fun a b => f b ≤ f a)).filter
          (fun a => decide (f a = c)) =
        l.filter (fun a => decide (f a = c)) := by
  intro l
  induction l with
  | nil => rfl
  | cons x xs ih =>
    simp only [List.insertionSort]
    by_cases hx : f x = c
    · rw [filter_orderedInsert_of_eq f c x hx, ih]
      simp [List.filter_cons, hx]
    · rw [filter_orderedInsert_of_ne f c x hx, ih]
      simp [List.filter_cons, hx]

/-! ## Claim theorem: few-shot selector -/

/-- Claim C4: for every score function, query, pool and k ≥ 0,
`select_few_shots` returns the first `min(k, pool size)` elements of the
pool sorted in descending order of the case-insensitive score of the
query against each element's post, with equal-score elements kept in
original pool order (stable tie-break); when `k ≥ pool size` it returns
the whole sorted pool. -/
theorem c4_select_top_k :
    ∀ (sim : String → String → ℚ) (q : String)
      (pool : List (String × String)) (k : Nat),
      select_few_shots sim q pool k =
        (pySortedDescBy (fun pr => pyScore sim q pr.1) pool).take k ∧
      (select_few_shots sim q pool k).length = min k pool.length ∧
      (pySortedDescBy (fun pr => pyScore sim q pr.1) pool).Perm pool ∧
      (pySortedDescBy (fun pr => pyScore sim q pr.1) pool).Pairwise
        (fun a b => pyScore sim q b.1 ≤ pyScore sim q a.1) ∧
      (∀ c : ℚ,
        (pySortedDescBy (fun pr => pyScore sim q pr.1) pool).filter
            (fun a => decide (pyScore sim q a.1 = c)) =
          pool.filter (fun a => decide (pyScore sim q a.1 = c))) ∧
      (pool.length ≤ k →
        select_few_shots sim q pool k =
          pySortedDescBy (fun pr => pyScore sim q pr.1) pool) := by
  intro sim q pool k
  have hperm := List.perm_insertionSort
    (fun a b : String × String => pyScore sim q b.1 ≤ pyScore sim q a.1) pool
  refine ⟨rfl, ?_, hperm, ?_, ?_, ?_⟩
  · simp [select_few_shots, pySortedDescBy, List.length_take, hperm.length_eq]
  · haveI : IsTotal (String × String)
        (fun a b => pyScore sim q b.1 ≤ pyScore sim q a.1) :=
      ⟨fun _ _ => le_total _ _⟩
    haveI : IsTrans (String × String)
        (fun a b => pyScore sim q b.1 ≤ pyScore sim q a.1) :=
      ⟨fun _ _ _ hab hbc => le_trans hbc hab⟩
    exact List.sorted_insertionSort _ pool
  · intro c
    exact filter_insertionSort_stable (fun pr => pyScore sim q pr.1) c pool
  · intro hk
    simp only [select_few_shots, pySortedDescBy]
    exact List.take_of_length_le (by rw [hperm.length_eq]; exact hk)

/-- Witness for C4's `k ≥ pool size` hypothesis at a concrete pool. -/
theorem c4_witness :
    ([("p", "r")] : List (String × String)).length ≤ 3 ∧
    select_few_shots (fun _ _ => 0) "q" [("p", "r")] 3 =
      pySortedDescBy (fun pr => pyScore (fun _ _ => 0) "q" pr.1) [("p", "r")] :=
  ⟨by decide,
    (c4_select_top_k (fun _ _ => 0) "q" [("p", "r")] 3).2.2.2.2.2 (by decide)⟩
